import Mathlib

/-!
Verification of the Robo-Advisor backtest core (`backtest_engine.py`,
`backtest_runner.py`) against its specification.

Modelling choices, shared by every definition below:
* Python floats become exact rationals `ℚ`; the one genuinely real-valued
  quantity (CAGR, a fractional power) lives in `ℝ`.
* A pandas `DataFrame` of monthly returns becomes a list of columns plus a
  list of timestamped rows; a missing cell or a NaN cell is `none`.
* Python dicts (allocation, asset-value ledger) become association lists,
  which preserve insertion order exactly as Python dicts do.
* `raise ValueError` becomes `Except.error` with the message string.
-/

namespace RoboAdvisor

/-- A calendar date, as carried by the pandas `DatetimeIndex` of the
monthly-returns frame and of the portfolio history. -/
structure Date where
  year : Int
  month : Nat
  day : Nat
deriving DecidableEq, Repr

/-- Lexicographic order on dates, matching chronological order of the
underlying timestamps. -/
def Date.le (d e : Date) : Bool :=
  if d.year ≠ e.year then d.year ≤ e.year
  else if d.month ≠ e.month then d.month ≤ e.month
  else d.day ≤ e.day

/-- Strict chronological order on dates. -/
def Date.lt (d e : Date) : Bool :=
  Date.le d e && !(d == e)

/-- One row of the monthly-returns frame: cell values per column ticker;
`none` models a NaN (or absent) cell. -/
abbrev Row := List (String × Option ℚ)

/-- The monthly-returns pandas DataFrame: its column labels and its rows in
index order. -/
structure DataFrame where
  cols : List String
  rows : List (Date × Row)
deriving DecidableEq, Repr

/-- `df.empty` in pandas: true when either axis has length 0. -/
def DataFrame.empty (df : DataFrame) : Bool :=
  df.rows.isEmpty || df.cols.isEmpty

/-- `row.get(asset, 0.0)` followed by the `pd.isna` guard in the engine loop
(`backtest_engine.py` lines 93–95): an absent column or a NaN cell both
yield a 0.0 return. -/
def rowGet (row : Row) (asset : String) : ℚ :=
  match row.lookup asset with
  | some (some v) => v
  | _ => 0

/-- An allocation `dict[ticker, weight]`, in insertion order. -/
abbrev Alloc := List (String × ℚ)

/-- The asset-value ledger `dict[ticker, value]`, in insertion order. -/
abbrev Ledger := List (String × ℚ)

/-- `allocation[asset]` for an asset known to be a key (every call site in
the engine looks up a key of the very dict the ledger was built from). -/
def lookupW (allocation : Alloc) (asset : String) : ℚ :=
  (allocation.lookup asset).getD 0

/-- `sum(asset_values.values())`. -/
def ledgerTotal (asset_values : Ledger) : ℚ :=
  (asset_values.map Prod.snd).sum

/-- `_rebalance` (`backtest_engine.py` lines 9–22): reset every tracked
asset's value to `total_value * allocation[asset]`, with `total_value`
computed once before the loop.  The in-place mutation becomes returning the
updated ledger. -/
def _rebalance (asset_values : Ledger) (allocation : Alloc) : Ledger :=
  let total_value := ledgerTotal asset_values
  asset_values.map (fun p => (p.1, total_value * lookupW allocation p.1))

/-- `math.isclose(a, b, rel_tol=1e-9, abs_tol=1e-9)`, in exact arithmetic:
`|a-b| ≤ max(rel_tol*max(|a|,|b|), abs_tol)`. -/
def isclose (a b : ℚ) : Bool :=
  |a - b| ≤ max (1 / 10 ^ 9 * max |a| |b|) (1 / 10 ^ 9)

/-- The body of one loop iteration (`backtest_engine.py` lines 90–105):
apply this period's returns to every tracked asset. -/
def applyReturns (row : Row) (asset_values : Ledger) : Ledger :=
  asset_values.map (fun p => (p.1, p.2 * (1 + rowGet row p.1)))

/-- Whether the incremented `month_counter` triggers a rebalance
(`backtest_engine.py` line 101). -/
def rebalanceDue (rebalance_frequency : Option Int) (month_counter : Nat) : Bool :=
  match rebalance_frequency with
  | some k => (month_counter : Int) % k == 0
  | none => false

/-- The period loop (`backtest_engine.py` lines 87–105), instrumented: it
returns the recorded totals in order, together with the 1-based values of
`month_counter` at which a rebalance event fired. -/
def simulate (allocation : Alloc) (rebalance_frequency : Option Int) :
    Ledger → Nat → List (Date × Row) → List ℚ × List Nat
  | _, _, [] => ([], [])
  | asset_values, month_counter, (_, row) :: rest =>
    let av := applyReturns row asset_values
    let c := month_counter + 1
    let due := rebalanceDue rebalance_frequency c
    let av := if due then _rebalance av allocation else av
    let total := ledgerTotal av
    let r := simulate allocation rebalance_frequency av c rest
    (total :: r.1, (if due then [c] else []) ++ r.2)

/-- `initial_capital * weight` per allocation entry
(`backtest_engine.py` lines 83–85). -/
def initialLedger (allocation : Alloc) (initial_capital : ℚ) : Ledger :=
  allocation.map (fun p => (p.1, initial_capital * p.2))

/-- Input validation of `run_backtest` (`backtest_engine.py` lines 53–80),
in source order.  Returns the error message of the first failing check.
The `isinstance(monthly_returns, pd.DataFrame)` and
`isinstance(rebalance_frequency, int)` checks are enforced by the types of
the embedding; the remaining `rebalance_frequency < 1` test is kept. -/
def validate (df : DataFrame) (allocation : Alloc) (initial_capital : ℚ)
    (rebalance_frequency : Option Int) : Option String :=
  if df.empty then some "monthly_returns must not be empty." else
  if allocation.isEmpty then some "allocation must not be empty." else
  if initial_capital ≤ 0 then some "initial_capital must be greater than 0." else
  if !isclose (allocation.map Prod.snd).sum 1 then
    some "Allocation must sum to 1.0." else
  if (match rebalance_frequency with | some k => decide (k < 1) | none => false) then
    some "rebalance_frequency must be None or a positive integer." else
  if allocation.any (fun p => !df.cols.contains p.1) then
    some "Ticker in allocation is not a column in monthly_returns." else
  none

/-- The `Backtest Result` record (`backtest_engine.py` lines 114–119), minus
the CAGR field, which is real-valued and is derived from `final_value`,
`initial_capital` and the period count by `cagr` below. -/
structure BacktestResult where
  portfolio_history : List (Date × ℚ)
  final_value : ℚ
  total_return : ℚ
deriving DecidableEq, Repr

/-- `run_backtest` (`backtest_engine.py` lines 25–119): validate, split the
capital per the allocation, run the period loop, and assemble the result.
`portfolio_history` pairs the input index with the recorded totals, exactly
as `pd.Series(history_values, index=monthly_returns.index)` does. -/
def run_backtest (df : DataFrame) (allocation : Alloc) (initial_capital : ℚ)
    (rebalance_frequency : Option Int) : Except String BacktestResult :=
  match validate df allocation initial_capital rebalance_frequency with
  | some msg => .error msg
  | none =>
    let asset_values := initialLedger allocation initial_capital
    let history_values := (simulate allocation rebalance_frequency asset_values 0 df.rows).1
    let portfolio_history := (df.rows.map Prod.fst).zip history_values
    let final_value := history_values.getLastD 0
    let total_return := final_value / initial_capital - 1
    .ok { portfolio_history := portfolio_history
          final_value := final_value
          total_return := total_return }

/-- The rebalance-event trace of `run_backtest`: same validation, same loop,
but projecting the 1-based period counters at which `_rebalance` was
applied. -/
def run_backtest_events (df : DataFrame) (allocation : Alloc) (initial_capital : ℚ)
    (rebalance_frequency : Option Int) : Except String (List Nat) :=
  match validate df allocation initial_capital rebalance_frequency with
  | some msg => .error msg
  | none =>
    let asset_values := initialLedger allocation initial_capital
    .ok (simulate allocation rebalance_frequency asset_values 0 df.rows).2

/-- `cagr` (`backtest_engine.py` lines 110–112): with
`years = n_months / 12`, the value `(final_value / initial_capital) **
(1.0 / years) - 1.0` when `years > 0`, else `0.0`. -/
noncomputable def cagr (initial_capital final_value : ℚ) (n_months : Nat) : ℝ :=
  let years : ℝ := (n_months : ℝ) / 12
  if 0 < years then
    ((final_value : ℝ) / (initial_capital : ℝ)) ^ ((1 : ℝ) / years) - 1
  else 0

/-! ## Report formatter (`backtest_runner.py`) -/

/-- Stable insertion used to model Python's (stable) sorting. -/
def insertBy (le : α → α → Bool) (x : α) : List α → List α
  | [] => [x]
  | y :: ys => if le x y then x :: y :: ys else y :: insertBy le x ys

/-- Python `sorted` / pandas `Series.sort_index`: a stable sort by the given
(total) order. -/
def sortBy (le : α → α → Bool) (l : List α) : List α :=
  l.foldr (insertBy le) []

/-- Minimum of a list (`Series.min()` on a non-empty series); every use site
below supplies a non-empty list, so the default for `[]` is never read. -/
def listMin : List ℚ → ℚ
  | [] => 0
  | x :: xs => xs.foldl min x

/-- Maximum of a non-empty list, same convention as `listMin`. -/
def listMax : List ℚ → ℚ
  | [] => 0
  | x :: xs => xs.foldl max x

/-- Running maximum continuing from an already-achieved maximum `m`. -/
def cummaxFrom (m : ℚ) : List ℚ → List ℚ
  | [] => []
  | x :: xs => max m x :: cummaxFrom (max m x) xs

/-- pandas `Series.cummax()`: the running maximum up to and including each
point. -/
def cummax : List ℚ → List ℚ
  | [] => []
  | x :: xs => x :: cummaxFrom x xs

/-- `_compute_max_drawdown` (`backtest_runner.py` lines 88–93): prepend the
initial capital to the history's values, take the running maximum, form the
pointwise drawdowns `(value - running_max) / running_max`, and return their
minimum. -/
def _compute_max_drawdown (portfolio_history : List (Date × ℚ))
    (initial_capital : ℚ) : ℚ :=
  let values := initial_capital :: portfolio_history.map Prod.snd
  let running_max := cummax values
  let drawdown := (values.zip running_max).map (fun p => (p.1 - p.2) / p.2)
  listMin drawdown

/-- The running maximum as the spec words it: at each point, the maximum of
the values up to and including that point. -/
def runningMaxSpec (values : List ℚ) : List ℚ :=
  (List.range values.length).map (fun i => listMax (values.take (i + 1)))

/-- Modelled from the spec: max drawdown as §4.2 words it — prepend the
initial capital, compute the running maximum up to and including each point,
form `(value − running_max) / running_max` at each point, and take the
minimum over the whole sequence. -/
def maxDrawdownSpec (portfolio_history : List (Date × ℚ))
    (initial_capital : ℚ) : ℚ :=
  let values := initial_capital :: portfolio_history.map Prod.snd
  let running_max := runningMaxSpec values
  listMin ((values.zip running_max).map (fun p => (p.1 - p.2) / p.2))

/-- `Index.year.unique()` in pandas: the distinct elements in first-occurrence
order. -/
def uniqueAux (seen : List Int) : List Int → List Int
  | [] => []
  | x :: xs => if seen.contains x then uniqueAux seen xs else x :: uniqueAux (x :: seen) xs

/-- The distinct elements of a list, in first-occurrence order. -/
def uniqueList (l : List Int) : List Int :=
  uniqueAux [] l

/-- The `for year in sorted(years)` loop of `_compute_yearly_returns`
(`backtest_runner.py` lines 104–113), threading `prev_value`. -/
def yearlyGo (hist : List (Date × ℚ)) : List Int → ℚ → List (Int × ℚ)
  | [], _ => []
  | y :: ys, prev_value =>
    let year_data := hist.filter (fun p => p.1.year == y)
    match year_data.getLast? with
    | none => yearlyGo hist ys prev_value
    | some lastEntry =>
      let end_value := lastEntry.2
      let ret := if prev_value > 0 then (end_value - prev_value) / prev_value else 0
      (y, ret) :: yearlyGo hist ys end_value

/-- `_compute_yearly_returns` (`backtest_runner.py` lines 96–113): sort the
history by its date index, collect the distinct calendar years, and walk
them in ascending order, taking each year's last entry as its closing value.
The `ret = ... if prev_value > 0 else 0.0` guard of line 110 is kept
verbatim in `yearlyGo`. -/
def _compute_yearly_returns (portfolio_history : List (Date × ℚ))
    (initial_capital : ℚ) : List (Int × ℚ) :=
  let hist := sortBy (fun p q => Date.le p.1 q.1) portfolio_history
  let years := uniqueList (hist.map (fun p => p.1.year))
  yearlyGo hist (sortBy (fun a b => decide (a ≤ b)) years) initial_capital

/-- The chained yearly-return recursion as §4.2 words it (no positivity
guard: the return is always `(end − prev) / prev`). -/
def yearlySpecGo (hist : List (Date × ℚ)) : List Int → ℚ → List (Int × ℚ)
  | [], _ => []
  | y :: ys, prev_value =>
    let closing := ((hist.filter (fun p => p.1.year == y)).getLastD (⟨0, 0, 0⟩, 0)).2
    (y, (closing - prev_value) / prev_value) :: yearlySpecGo hist ys closing

/-- Modelled from the spec: yearly returns as §4.2 words them — group the
(chronological) history by calendar year, use the last entry per year as its
closing value, and for each distinct year in ascending order compute
`(year_end_value − previous_year_end_value) / previous_year_end_value`,
seeding the previous value with the initial capital. -/
def yearlyReturnsSpec (portfolio_history : List (Date × ℚ))
    (initial_capital : ℚ) : List (Int × ℚ) :=
  let years := sortBy (fun a b => decide (a ≤ b))
    (uniqueList (portfolio_history.map (fun p => p.1.year)))
  yearlySpecGo portfolio_history years initial_capital

/-- Structure-level decidable equality for backtest outcomes, used to settle
concrete run comparisons by evaluation. -/
instance {ε α : Type} [DecidableEq ε] [DecidableEq α] : DecidableEq (Except ε α) :=
  fun a b =>
    match a, b with
    | .error e, .error f => decidable_of_iff (e = f) (by simp)
    | .ok x, .ok y => decidable_of_iff (x = y) (by simp)
    | .error _, .ok _ => isFalse (by simp)
    | .ok _, .error _ => isFalse (by simp)

/-! ## General lemmas about the engine loop -/

/-- The loop records exactly one total per input row. -/
lemma simulate_fst_length (a : Alloc) (rf : Option Int) :
    ∀ (rows : List (Date × Row)) (av : Ledger) (c : Nat),
      ((simulate a rf av c rows).1).length = rows.length := by
  intro rows
  induction rows with
  | nil => intro av c; rfl
  | cons hd tl ih =>
    intro av c
    cases hd with
    | mk d row => simp [simulate, ih]

/-- On success, `run_backtest` is the record built from the loop's totals. -/
lemma run_backtest_ok_elim (df : DataFrame) (a : Alloc) (ic : ℚ) (rf : Option Int)
    (r : BacktestResult) (h : run_backtest df a ic rf = .ok r) :
    validate df a ic rf = none ∧
    r = { portfolio_history :=
            (df.rows.map Prod.fst).zip
              (simulate a rf (initialLedger a ic) 0 df.rows).1
          final_value := (simulate a rf (initialLedger a ic) 0 df.rows).1.getLastD 0
          total_return :=
            (simulate a rf (initialLedger a ic) 0 df.rows).1.getLastD 0 / ic - 1 } := by
  cases hv : validate df a ic rf with
  | some m =>
    simp only [run_backtest, hv] at h
    exact Except.noConfusion h
  | none =>
    simp only [run_backtest, hv, Except.ok.injEq] at h
    exact ⟨rfl, h.symm⟩

/-! ## C1 -/

/-- C1: for every valid input (success of `run_backtest`), the portfolio
history has exactly one entry per input period, in the input's chronological
order, with timestamps equal pairwise to the input series' timestamps. -/
theorem claim1_history_matches_input (df : DataFrame) (a : Alloc) (ic : ℚ)
    (rf : Option Int) (r : BacktestResult) (h : run_backtest df a ic rf = .ok r) :
    r.portfolio_history.length = df.rows.length ∧
    r.portfolio_history.map Prod.fst = df.rows.map Prod.fst := by
  obtain ⟨-, hr⟩ := run_backtest_ok_elim df a ic rf r h
  subst hr
  have hlen := simulate_fst_length a rf df.rows (initialLedger a ic) 0
  constructor
  · simp [List.length_zip, hlen]
  · exact List.map_fst_zip _ _ (by simp [hlen])

set_option maxRecDepth 4000 in
/-- Witness for C1 at a concrete input: one instrument, two periods. -/
theorem claim1_witness :
    ({ portfolio_history := [(⟨2020, 1, 31⟩, (11/10 : ℚ)), (⟨2020, 2, 29⟩, (121/100 : ℚ))]
       final_value := (121/100 : ℚ)
       total_return := (21/100 : ℚ) } : BacktestResult).portfolio_history.length
        = (DataFrame.mk ["A"]
            [(⟨2020, 1, 31⟩, [("A", some (1/10 : ℚ))]),
             (⟨2020, 2, 29⟩, [("A", some (1/10 : ℚ))])]).rows.length ∧
    ({ portfolio_history := [(⟨2020, 1, 31⟩, (11/10 : ℚ)), (⟨2020, 2, 29⟩, (121/100 : ℚ))]
       final_value := (121/100 : ℚ)
       total_return := (21/100 : ℚ) } : BacktestResult).portfolio_history.map Prod.fst
        = (DataFrame.mk ["A"]
            [(⟨2020, 1, 31⟩, [("A", some (1/10 : ℚ))]),
             (⟨2020, 2, 29⟩, [("A", some (1/10 : ℚ))])]).rows.map Prod.fst :=
  claim1_history_matches_input
    (DataFrame.mk ["A"]
      [(⟨2020, 1, 31⟩, [("A", some (1/10 : ℚ))]),
       (⟨2020, 2, 29⟩, [("A", some (1/10 : ℚ))])])
    [("A", 1)] 1 none _ (by with_unfolding_all decide)

/-! ## C3 -/

/-- The loop fires a rebalance exactly at the counters divisible by `k`. -/
lemma simulate_snd_events (a : Alloc) (k : Int) :
    ∀ (rows : List (Date × Row)) (av : Ledger) (c : Nat),
      (simulate a (some k) av c rows).2
        = (List.range' (c + 1) rows.length).filter (fun i : Nat => ((i : Int) % k == 0)) := by
  intro rows
  induction rows with
  | nil => intro av c; rfl
  | cons hd tl ih =>
    intro av c
    cases hd with
    | mk d row =>
      simp only [simulate, rebalanceDue, List.length_cons, List.range'_succ,
        List.filter_cons, ih]
      split
      · rename_i hdue; simp [hdue]
      · rename_i hdue; simp [hdue]

/-- C3: with `rebalance_frequency = k`, `run_backtest` rebalances (after
applying the period's returns and before recording its total, as `simulate`
does by construction) in exactly the periods whose 1-based counter is a
multiple of `k`; the witness instantiates the 24-period, `k = 12` scenario,
whose event list is `[12, 24]`. -/
theorem claim3_rebalance_schedule (df : DataFrame) (a : Alloc) (ic : ℚ)
    (k : Int) (evs : List Nat)
    (h : run_backtest_events df a ic (some k) = .ok evs) :
    evs = (List.range' 1 df.rows.length).filter (fun i : Nat => ((i : Int) % k == 0)) := by
  cases hv : validate df a ic (some k) with
  | some m =>
    simp only [run_backtest_events, hv] at h
    exact Except.noConfusion h
  | none =>
    simp only [run_backtest_events, hv, Except.ok.injEq] at h
    rw [← h, simulate_snd_events a k df.rows (initialLedger a ic) 0]

set_option maxRecDepth 8000 in
/-- Witness for C3: a 24-period series with `rebalance_frequency = 12`
produces exactly the two events 12 and 24. -/
theorem claim3_witness :
    ([12, 24] : List Nat)
      = (List.range' 1 (DataFrame.mk ["A"]
          (List.replicate 24 ((⟨2020, 1, 31⟩ : Date), ([] : Row)))).rows.length).filter
          (fun i : Nat => ((i : Int) % 12 == 0)) :=
  claim3_rebalance_schedule
    (DataFrame.mk ["A"] (List.replicate 24 ((⟨2020, 1, 31⟩ : Date), ([] : Row))))
    [("A", 1)] 1 12 [12, 24] (by with_unfolding_all decide)

/-! ## C2 -/

/-- Validation succeeds exactly when all six source checks pass. -/
lemma validate_isSome_eq (df : DataFrame) (a : Alloc) (ic : ℚ) (rf : Option Int) :
    (validate df a ic rf).isSome =
      (df.empty || a.isEmpty || decide (ic ≤ 0) ||
       !isclose (a.map Prod.snd).sum 1 ||
       (match rf with | some k => decide (k < 1) | none => false) ||
       a.any (fun p => !df.cols.contains p.1)) := by
  unfold validate
  split_ifs with h1 h2 h3 h4 h5 h6 <;> simp_all
  exact h6

/-- C2: `run_backtest` fails with a validation error — carrying no result at
all, hence before any simulation output exists — exactly when the input is
invalid: empty returns frame (either axis), empty allocation, non-positive
capital, weight sum failing the `isclose` 1e-9 test, a present
`rebalance_frequency` below 1, or an allocation ticker that is not a column
of the frame.  (A non-DataFrame input and a non-integer rebalance period are
excluded by the embedding's types, which mirror the two `isinstance`
checks.) -/
theorem claim2_error_iff_invalid (df : DataFrame) (a : Alloc) (ic : ℚ)
    (rf : Option Int) :
    (∃ msg, run_backtest df a ic rf = .error msg) ↔
      (df.rows = [] ∨ df.cols = [] ∨ a = [] ∨ ic ≤ 0 ∨
       isclose (a.map Prod.snd).sum 1 = false ∨
       (∃ k, rf = some k ∧ k < 1) ∨
       (∃ p ∈ a, p.1 ∉ df.cols)) := by
  have herr : (∃ msg, run_backtest df a ic rf = .error msg)
      ↔ (validate df a ic rf).isSome = true := by
    cases hv : validate df a ic rf with
    | some m => simp [run_backtest, hv]
    | none => simp [run_backtest, hv]
  rw [herr, validate_isSome_eq]
  simp only [Bool.or_eq_true, DataFrame.empty, List.isEmpty_iff,
    decide_eq_true_eq, Bool.not_eq_true', List.any_eq_true, List.elem_iff,
    or_assoc]
  cases rf with
  | none => simp
  | some k => simp

/-! ## C4 -/

/-- C4: on every successful run over `n` input periods, `n ≥ 1`,
`final_value` is the last portfolio-history value, `total_return` is
`final_value / initial_capital − 1`, and the CAGR takes the formula branch
`(final_value / initial_capital) ^ (12 / n) − 1` (equivalently
`^(1/(n/12))`) — for any `n ≥ 1`, including fewer than 12 periods; the
`years = 0` fallback to 0 is unreachable on success. -/
theorem claim4_summary_stats (df : DataFrame) (a : Alloc) (ic : ℚ)
    (rf : Option Int) (r : BacktestResult) (h : run_backtest df a ic rf = .ok r) :
    1 ≤ df.rows.length ∧
    (r.portfolio_history.map Prod.snd).getLastD 0 = r.final_value ∧
    r.total_return = r.final_value / ic - 1 ∧
    cagr ic r.final_value df.rows.length
      = ((r.final_value : ℝ) / (ic : ℝ)) ^ ((12 : ℝ) / (df.rows.length : ℝ)) - 1 := by
  obtain ⟨hv, hr⟩ := run_backtest_ok_elim df a ic rf r h
  have hne : df.rows ≠ [] := by
    have hsome : (validate df a ic rf).isSome = false := by rw [hv]; rfl
    rw [validate_isSome_eq] at hsome
    simp only [Bool.or_eq_false_iff, DataFrame.empty, List.isEmpty_eq_false] at hsome
    exact hsome.1.1.1.1.1.1
  have hlen : 1 ≤ df.rows.length := List.length_pos.mpr hne
  subst hr
  refine ⟨hlen, ?_, rfl, ?_⟩
  · rw [List.map_snd_zip]
    simp [simulate_fst_length]
  · have hy : (0 : ℝ) < (df.rows.length : ℝ) / 12 := by positivity
    simp only [cagr]
    rw [if_pos hy, one_div_div]

set_option maxRecDepth 4000 in
/-- Witness for C4 at a concrete one-period input. -/
theorem claim4_witness :
    1 ≤ 1 ∧
    ([(((⟨2020, 1, 31⟩ : Date)), (1 : ℚ))].map Prod.snd).getLastD 0 = (1 : ℚ) ∧
    (0 : ℚ) = 1 / 1 - 1 ∧
    cagr 1 1 1 = (((1 : ℚ) : ℝ) / ((1 : ℚ) : ℝ)) ^ ((12 : ℝ) / ((1 : Nat) : ℝ)) - 1 :=
  claim4_summary_stats
    (DataFrame.mk ["A"] [(⟨2020, 1, 31⟩, [("A", some (0 : ℚ))])])
    [("A", 1)] 1 none
    { portfolio_history := [(⟨2020, 1, 31⟩, (1 : ℚ))]
      final_value := 1
      total_return := 0 }
    (by with_unfolding_all decide)

/-! ## C6 -/

/-- The loop on a single instrument of constant return compounds
geometrically: the recorded totals are `v·(1+r)^(i+1)`. -/
lemma sim_const (r : ℚ) : ∀ (n : Nat) (v : ℚ) (c : Nat),
    (simulate [("A", 1)] none [("A", v)] c
        (List.replicate n ((⟨2020, 1, 1⟩ : Date), [("A", some r)]))).1
      = (List.range n).map (fun i => v * (1 + r) ^ (i + 1)) := by
  intro n
  induction n with
  | zero => intro v c; rfl
  | succ m ih =>
    intro v c
    rw [List.replicate_succ]
    have hrow : rowGet [("A", some r)] "A" = r := rfl
    simp only [simulate, rebalanceDue, applyReturns, List.map_cons, List.map_nil,
      hrow, ledgerTotal, List.sum_cons, List.sum_nil, add_zero, Bool.false_eq_true,
      if_false, ih]
    rw [List.range_succ_eq_map, List.map_cons, List.map_map]
    refine congrArg₂ _ (by ring) (List.map_congr_left ?_)
    intro i _
    simp only [Function.comp, Nat.succ_eq_add_one]
    ring

/-- C6: a buy-and-hold run (`rebalance_frequency = None`) on one instrument
with weight 1.0 over `n ≥ 1` periods each returning exactly `r` produces
`final_value = initial_capital × (1+r)^n` (exactly, in rational
arithmetic). -/
theorem claim6_buy_and_hold_compound (n : Nat) (r ic : ℚ)
    (hn : 1 ≤ n) (hic : 0 < ic) :
    ∃ res,
      run_backtest
        (DataFrame.mk ["A"] (List.replicate n ((⟨2020, 1, 1⟩ : Date), [("A", some r)])))
        [("A", 1)] ic none = .ok res ∧
      res.final_value = ic * (1 + r) ^ n := by
  have hclose : isclose (1 : ℚ) 1 = true := by
    with_unfolding_all decide
  have hv : validate
      (DataFrame.mk ["A"] (List.replicate n ((⟨2020, 1, 1⟩ : Date), [("A", some r)])))
      [("A", 1)] ic none = none := by
    obtain ⟨m, rfl⟩ : ∃ m, n = m + 1 := ⟨n - 1, (Nat.succ_pred_eq_of_pos hn).symm⟩
    simp [validate, DataFrame.empty, List.replicate_succ, not_le.mpr hic, hclose]
  have hfin : ((simulate [("A", 1)] none (initialLedger [("A", 1)] ic) 0
      (List.replicate n ((⟨2020, 1, 1⟩ : Date), [("A", some r)]))).1).getLastD 0
      = ic * (1 + r) ^ n := by
    have hinit : initialLedger [("A", 1)] ic = [("A", ic * 1)] := rfl
    rw [hinit, sim_const r n (ic * 1) 0]
    obtain ⟨m, rfl⟩ : ∃ m, n = m + 1 := ⟨n - 1, (Nat.succ_pred_eq_of_pos hn).symm⟩
    rw [List.range_succ, List.map_append, List.map_cons, List.map_nil]
    simp only [List.getLastD_eq_getLast?, List.getLast?_concat, Option.getD_some]
    ring
  refine ⟨{ portfolio_history :=
              (List.map Prod.fst
                  (List.replicate n ((⟨2020, 1, 1⟩ : Date), [("A", some r)]))).zip
                (simulate [("A", 1)] none (initialLedger [("A", 1)] ic) 0
                  (List.replicate n ((⟨2020, 1, 1⟩ : Date), [("A", some r)]))).1
            final_value :=
              ((simulate [("A", 1)] none (initialLedger [("A", 1)] ic) 0
                  (List.replicate n ((⟨2020, 1, 1⟩ : Date), [("A", some r)]))).1).getLastD 0
            total_return :=
              ((simulate [("A", 1)] none (initialLedger [("A", 1)] ic) 0
                  (List.replicate n ((⟨2020, 1, 1⟩ : Date),
                    [("A", some r)]))).1).getLastD 0 / ic - 1 }, ?_, hfin⟩
  simp only [run_backtest, hv]

/-- Witness for C6: 2 periods of +10% on capital 100 end at 121. -/
theorem claim6_witness :
    ∃ res,
      run_backtest
        (DataFrame.mk ["A"]
          (List.replicate 2 ((⟨2020, 1, 1⟩ : Date), [("A", some (1/10 : ℚ))])))
        [("A", 1)] 100 none = .ok res ∧
      res.final_value = 100 * (1 + 1/10 : ℚ) ^ 2 :=
  claim6_buy_and_hold_compound 2 (1/10) 100 (by decide) (by with_unfolding_all decide)

/-! ## C10 -/

/-- C10 (amended): `_rebalance` preserves the sum of ledger values exactly
when the allocation weights looked up at the ledger's own instruments sum to
1 — in particular for the engine's ledgers, whose instrument set is exactly
the allocation's.  The unrestricted claim (any allocation covering the
ledger, total weight 1) is refuted by `claim10_counterexample`. -/
theorem claim10_rebalance_preserves_total (av : Ledger) (alloc : Alloc)
    (hsum : (av.map (fun p => lookupW alloc p.1)).sum = 1) :
    ledgerTotal (_rebalance av alloc) = ledgerTotal av := by
  have h1 : ∀ c : ℚ, ledgerTotal (av.map fun p => (p.1, c * lookupW alloc p.1))
      = c * (av.map (fun p => lookupW alloc p.1)).sum := by
    intro c
    unfold ledgerTotal
    rw [List.map_map, ← List.sum_map_mul_left]
    rfl
  show ledgerTotal (av.map fun p => (p.1, ledgerTotal av * lookupW alloc p.1))
      = ledgerTotal av
  rw [h1, hsum, mul_one]

/-- Counterexample to C10 as stated: the allocation `{A: 1/2, B: 1/2}`
covers the ledger `{A: 1}` and its weights sum exactly to 1, yet
`_rebalance` shrinks the ledger total from 1 to 1/2. -/
theorem claim10_counterexample :
    (([("A", (1 : ℚ)/2), ("B", (1 : ℚ)/2)] : Alloc).map Prod.snd).sum = 1 ∧
    "A" ∈ ([("A", (1 : ℚ)/2), ("B", (1 : ℚ)/2)] : Alloc).map Prod.fst ∧
    ledgerTotal (_rebalance [("A", 1)] [("A", (1 : ℚ)/2), ("B", (1 : ℚ)/2)])
      ≠ ledgerTotal [("A", (1 : ℚ))] := by
  with_unfolding_all decide

/-- Witness for the amended C10 on a concrete ledger and allocation. -/
theorem claim10_witness :
    (([("A", (5 : ℚ))] : Ledger).map
        (fun p => lookupW [("A", (1 : ℚ))] p.1)).sum = 1 ∧
    ledgerTotal (_rebalance [("A", (5 : ℚ))] [("A", (1 : ℚ))])
      = ledgerTotal [("A", (5 : ℚ))] :=
  ⟨by with_unfolding_all decide,
   claim10_rebalance_preserves_total [("A", 5)] [("A", 1)] (by with_unfolding_all decide)⟩

/-! ## C5 -/

/-- The running maximum with seed `m` is the prefix-wise `foldl max m`. -/
lemma cummaxFrom_eq (xs : List ℚ) : ∀ m : ℚ,
    cummaxFrom m xs
      = (List.range xs.length).map (fun i => (xs.take (i + 1)).foldl max m) := by
  induction xs with
  | nil => intro m; rfl
  | cons y ys ih =>
    intro m
    simp only [cummaxFrom, List.length_cons, List.range_succ_eq_map,
      List.map_cons, List.map_map]
    refine congrArg₂ _ (by simp) ?_
    rw [ih (max m y)]
    refine List.map_congr_left ?_
    intro i _
    simp [Function.comp, List.take_succ_cons]

/-- pandas `cummax` agrees with the spec's "running maximum up to and
including each point". -/
lemma cummax_eq_runningMaxSpec (l : List ℚ) : cummax l = runningMaxSpec l := by
  cases l with
  | nil => rfl
  | cons x xs =>
    simp only [cummax, runningMaxSpec, List.length_cons, List.range_succ_eq_map,
      List.map_cons, List.map_map]
    refine congrArg₂ _ (by simp [listMax]) ?_
    rw [cummaxFrom_eq xs x]
    refine List.map_congr_left ?_
    intro i _
    simp [Function.comp, List.take_succ_cons, listMax]

/-- Folding `min` never rises above its seed. -/
lemma foldl_min_le_init (xs : List ℚ) : ∀ x : ℚ, xs.foldl min x ≤ x := by
  induction xs with
  | nil => intro x; exact le_refl x
  | cons y ys ih =>
    intro x
    exact le_trans (ih (min x y)) (min_le_left x y)

/-- Lower bound for a `min` fold. -/
lemma le_foldl_min (xs : List ℚ) : ∀ (a x : ℚ), a ≤ x → (∀ y ∈ xs, a ≤ y) →
    a ≤ xs.foldl min x := by
  induction xs with
  | nil => intro a x hx _; exact hx
  | cons y ys ih =>
    intro a x hx hmem
    exact ih a (min x y) (le_min hx (hmem y (by simp)))
      (fun z hz => hmem z (by simp [hz]))

/-- Every entry of a running maximum dominates its seed. -/
lemma le_of_mem_cummaxFrom (xs : List ℚ) : ∀ (m z : ℚ), z ∈ cummaxFrom m xs →
    m ≤ z := by
  induction xs with
  | nil => intro m z hz; cases hz
  | cons y ys ih =>
    intro m z hz
    rcases List.mem_cons.mp hz with h | h
    · exact h ▸ le_max_left m y
    · exact le_trans (le_max_left m y) (ih (max m y) z h)

/-- On a non-decreasing tail, the running maximum is the tail itself. -/
lemma cummaxFrom_chain : ∀ (ys : List ℚ) (y : ℚ),
    List.Chain' (· ≤ ·) (y :: ys) → cummaxFrom y ys = ys := by
  intro ys
  induction ys with
  | nil => intro y _; rfl
  | cons z zs ih =>
    intro y hch
    rw [List.chain'_cons] at hch
    simp only [cummaxFrom, max_eq_right hch.1]
    rw [ih z hch.2]

/-- Zipping a list with itself then mapping is mapping the diagonal. -/
lemma zip_self_map (g : ℚ × ℚ → ℚ) : ∀ l : List ℚ,
    (l.zip l).map g = l.map (fun v => g (v, v)) := by
  intro l
  induction l with
  | nil => rfl
  | cons x xs ih => simp [List.zip_cons_cons, ih]

/-- C5 (amended): for a positive initial capital and a history of
non-negative values — the regime every engine-produced history lies in —
the formatter's max drawdown equals the spec's minimum-of-drawdowns formula,
is ≤ 0 and ≥ −1, and is 0 whenever `initial_capital :: history values` is
non-decreasing (a monotone history never dipping below the capital).  The
unrestricted "≥ −1 for every history" reading is refuted by
`claim5_counterexample`. -/
theorem claim5_max_drawdown_props (hist : List (Date × ℚ)) (ic : ℚ)
    (hic : 0 < ic) (hpos : ∀ p ∈ hist, 0 ≤ p.2) :
    _compute_max_drawdown hist ic = maxDrawdownSpec hist ic ∧
    _compute_max_drawdown hist ic ≤ 0 ∧
    (-1 : ℚ) ≤ _compute_max_drawdown hist ic ∧
    (List.Chain' (· ≤ ·) (ic :: hist.map Prod.snd) →
      _compute_max_drawdown hist ic = 0) := by
  have hvals : ∀ v ∈ hist.map Prod.snd, (0 : ℚ) ≤ v := by
    intro v hv
    obtain ⟨p, hp, rfl⟩ := List.mem_map.mp hv
    exact hpos p hp
  refine ⟨?_, ?_, ?_, ?_⟩
  · dsimp only [_compute_max_drawdown, maxDrawdownSpec]
    rw [cummax_eq_runningMaxSpec]
  · unfold _compute_max_drawdown
    simp only [cummax, List.zip_cons_cons, List.map_cons, listMin]
    have h0 : (ic - ic) / ic = 0 := by rw [sub_self, zero_div]
    calc (List.map (fun p => (p.1 - p.2) / p.2)
            ((hist.map Prod.snd).zip (cummaxFrom ic (hist.map Prod.snd)))).foldl
          min ((ic - ic) / ic)
        ≤ (ic - ic) / ic := foldl_min_le_init _ _
      _ = 0 := h0
  · unfold _compute_max_drawdown
    simp only [cummax, List.zip_cons_cons, List.map_cons, listMin]
    refine le_foldl_min _ _ _ (by rw [sub_self, zero_div]; norm_num) ?_
    intro y hy
    obtain ⟨q, hq, rfl⟩ := List.mem_map.mp hy
    obtain ⟨hq1, hq2⟩ := List.of_mem_zip hq
    have hm : ic ≤ q.2 := le_of_mem_cummaxFrom _ _ _ hq2
    have hmpos : (0 : ℚ) < q.2 := lt_of_lt_of_le hic hm
    have hq1' : (0 : ℚ) ≤ q.1 := hvals q.1 hq1
    rw [le_div_iff₀ hmpos]
    linarith
  · intro hch
    dsimp only [_compute_max_drawdown]
    have hcm : cummax (ic :: hist.map Prod.snd) = ic :: hist.map Prod.snd := by
      simp only [cummax]
      rw [cummaxFrom_chain _ _ hch]
    rw [hcm, zip_self_map]
    have hzero : (ic :: hist.map Prod.snd).map (fun v => (v - v) / v)
        = (ic :: hist.map Prod.snd).map (fun _ => (0 : ℚ)) := by
      refine List.map_congr_left ?_
      intro v _
      rw [sub_self, zero_div]
    rw [hzero]
    simp only [List.map_cons, listMin]
    refine le_antisymm (foldl_min_le_init _ _) ?_
    refine le_foldl_min _ _ _ (le_refl 0) ?_
    intro y hy
    obtain ⟨v, _, rfl⟩ := List.mem_map.mp hy
    exact le_refl 0

set_option maxRecDepth 4000 in
/-- Counterexample to C5 as stated: with initial capital 1 and the single
(negative) history value −1, the computed max drawdown is −2, strictly below
−1; "always ≥ −1" fails without a non-negativity assumption on the
history. -/
theorem claim5_counterexample :
    _compute_max_drawdown [((⟨2020, 1, 31⟩ : Date), (-1 : ℚ))] 1 = -2 ∧
    ¬ ((-1 : ℚ) ≤ _compute_max_drawdown [((⟨2020, 1, 31⟩ : Date), (-1 : ℚ))] 1) := by
  with_unfolding_all decide

set_option maxRecDepth 4000 in
/-- Witness for the amended C5 on a concrete dipping history. -/
theorem claim5_witness :
    _compute_max_drawdown
        [((⟨2020, 1, 31⟩ : Date), (2 : ℚ)), ((⟨2020, 2, 29⟩ : Date), (1 : ℚ))] 1
      = maxDrawdownSpec
        [((⟨2020, 1, 31⟩ : Date), (2 : ℚ)), ((⟨2020, 2, 29⟩ : Date), (1 : ℚ))] 1 ∧
    _compute_max_drawdown
        [((⟨2020, 1, 31⟩ : Date), (2 : ℚ)), ((⟨2020, 2, 29⟩ : Date), (1 : ℚ))] 1 ≤ 0 ∧
    (-1 : ℚ) ≤ _compute_max_drawdown
        [((⟨2020, 1, 31⟩ : Date), (2 : ℚ)), ((⟨2020, 2, 29⟩ : Date), (1 : ℚ))] 1 ∧
    (List.Chain' (· ≤ ·)
        (1 :: [((⟨2020, 1, 31⟩ : Date), (2 : ℚ)),
               ((⟨2020, 2, 29⟩ : Date), (1 : ℚ))].map Prod.snd) →
      _compute_max_drawdown
        [((⟨2020, 1, 31⟩ : Date), (2 : ℚ)), ((⟨2020, 2, 29⟩ : Date), (1 : ℚ))] 1 = 0) :=
  claim5_max_drawdown_props
    [((⟨2020, 1, 31⟩ : Date), (2 : ℚ)), ((⟨2020, 2, 29⟩ : Date), (1 : ℚ))] 1
    (by norm_num) (by intro p hp; fin_cases hp <;> norm_num)

/-! ## C7 -/

/-- Association-list lookup of a member key, when keys are distinct (as dict
keys are). -/
lemma lookup_eq_of_mem_nodup : ∀ (a : Alloc) (p : String × ℚ), p ∈ a →
    (a.map Prod.fst).Nodup → a.lookup p.1 = some p.2 := by
  intro a
  induction a with
  | nil => intro p hp; cases hp
  | cons q rest ih =>
    intro p hp hnd
    rw [List.map_cons, List.nodup_cons] at hnd
    rcases List.mem_cons.mp hp with h | h
    · subst h
      rw [List.lookup_cons]
      simp
    · have hne : p.1 ≠ q.1 := by
        intro he
        exact hnd.1 (he ▸ List.mem_map_of_mem Prod.fst h)
      rw [List.lookup_cons]
      have : (p.1 == q.1) = false := beq_eq_false_iff_ne.mpr hne
      rw [this]
      exact ih p h hnd.2

/-- Total of a ledger whose every value is `c` times its weight. -/
lemma ledgerTotal_scaled (a : Alloc) (c : ℚ) :
    ledgerTotal (a.map (fun p => (p.1, c * p.2))) = c * (a.map Prod.snd).sum := by
  unfold ledgerTotal
  rw [List.map_map, ← List.sum_map_mul_left]
  rfl

/-- A uniform per-period return scales a proportionally-split ledger. -/
lemma applyReturns_scaled (a : Alloc) (row : Row) (r c : ℚ)
    (hr : ∀ p ∈ a, rowGet row p.1 = r) :
    applyReturns row (a.map (fun p => (p.1, c * p.2)))
      = a.map (fun p => (p.1, c * (1 + r) * p.2)) := by
  unfold applyReturns
  rw [List.map_map]
  refine List.map_congr_left ?_
  intro p hp
  simp only [Function.comp]
  rw [hr p hp]
  exact Prod.ext rfl (by ring)

/-- Rebalancing a ledger that already sits at target weights is the
identity (when the weights sum exactly to 1 and keys are distinct). -/
lemma rebalance_scaled (a : Alloc) (c : ℚ) (hnd : (a.map Prod.fst).Nodup)
    (hsum : (a.map Prod.snd).sum = 1) :
    _rebalance (a.map (fun p => (p.1, c * p.2))) a
      = a.map (fun p => (p.1, c * p.2)) := by
  dsimp only [_rebalance]
  rw [List.map_map]
  refine List.map_congr_left ?_
  intro p hp
  simp only [Function.comp]
  rw [ledgerTotal_scaled, hsum, mul_one]
  rw [lookupW, lookup_eq_of_mem_nodup a p hp hnd]
  rfl

/-- With uniform returns and exactly-unit total weight, rebalancing every
period records the same totals as never rebalancing. -/
lemma sim_uniform (a : Alloc) (hnd : (a.map Prod.fst).Nodup)
    (hsum : (a.map Prod.snd).sum = 1) :
    ∀ (rows : List (Date × Row)),
      (∀ dr ∈ rows, ∃ r : ℚ, ∀ p ∈ a, rowGet dr.2 p.1 = r) →
      ∀ (c : ℚ) (cnt : Nat),
        (simulate a (some 1) (a.map (fun p => (p.1, c * p.2))) cnt rows).1
          = (simulate a none (a.map (fun p => (p.1, c * p.2))) cnt rows).1 := by
  intro rows
  induction rows with
  | nil => intro _ c cnt; rfl
  | cons dr rest ih =>
    intro hunif c cnt
    obtain ⟨r, hr⟩ := hunif dr (by simp)
    have hrest : ∀ dr' ∈ rest, ∃ r' : ℚ, ∀ p ∈ a, rowGet dr'.2 p.1 = r' :=
      fun dr' h => hunif dr' (by simp [h])
    cases dr with
    | mk d row =>
      have hdue : rebalanceDue (some 1) (cnt + 1) = true := by
        simp [rebalanceDue, Int.emod_one]
      have hnodue : rebalanceDue none (cnt + 1) = false := rfl
      simp only [simulate, hdue, hnodue, if_true, if_false, Bool.false_eq_true]
      rw [applyReturns_scaled a row r c hr, rebalance_scaled a (c * (1 + r)) hnd hsum,
        ih hrest (c * (1 + r)) (cnt + 1)]

/-- C7 (amended): for an allocation with distinct instruments whose weights
sum exactly to 1, and a returns series giving every allocation instrument
the same return in each period, `run_backtest` with
`rebalance_frequency = 1` returns exactly the same result as buy-and-hold
(`rebalance_frequency = None`).  For a merely `isclose`-valid weight sum
(e.g. 1 − 10⁻¹⁰) the two runs differ — `claim7_counterexample`. -/
theorem claim7_monthly_rebalance_eq_buy_hold (df : DataFrame) (a : Alloc)
    (ic : ℚ) (hnd : (a.map Prod.fst).Nodup)
    (hsum : (a.map Prod.snd).sum = 1)
    (hunif : ∀ dr ∈ df.rows, ∃ r : ℚ, ∀ p ∈ a, rowGet dr.2 p.1 = r) :
    run_backtest df a ic (some 1) = run_backtest df a ic none := by
  have hval : validate df a ic (some 1) = validate df a ic none := by
    unfold validate
    simp
  cases hv : validate df a ic none with
  | some m => simp only [run_backtest, hval, hv]
  | none =>
    simp only [run_backtest, hval, hv]
    have hinit : initialLedger a ic = a.map (fun p => (p.1, ic * p.2)) := rfl
    have hsim : (simulate a (some 1) (initialLedger a ic) 0 df.rows).1
        = (simulate a none (initialLedger a ic) 0 df.rows).1 := by
      rw [hinit]
      exact sim_uniform a hnd hsum df.rows hunif ic 0
    rw [hsim]

set_option maxRecDepth 4000 in
/-- Counterexample to C7 as stated: the allocation `{A: 1 − 10⁻¹⁰}` passes
validation (its sum is `isclose` to 1), the single-instrument series is
trivially uniform, both runs succeed — yet monthly rebalancing multiplies
the recorded total by the weight sum again, so the results differ. -/
theorem claim7_counterexample :
    (run_backtest (DataFrame.mk ["A"] [((⟨2020, 1, 31⟩ : Date), [("A", some (1 : ℚ))])])
        [("A", 1 - 1/10 ^ 10)] 1 (some 1)).toOption.isSome = true ∧
    (run_backtest (DataFrame.mk ["A"] [((⟨2020, 1, 31⟩ : Date), [("A", some (1 : ℚ))])])
        [("A", 1 - 1/10 ^ 10)] 1 none).toOption.isSome = true ∧
    run_backtest (DataFrame.mk ["A"] [((⟨2020, 1, 31⟩ : Date), [("A", some (1 : ℚ))])])
        [("A", 1 - 1/10 ^ 10)] 1 (some 1)
      ≠ run_backtest (DataFrame.mk ["A"] [((⟨2020, 1, 31⟩ : Date), [("A", some (1 : ℚ))])])
        [("A", 1 - 1/10 ^ 10)] 1 none := by
  with_unfolding_all decide

set_option maxRecDepth 4000 in
/-- Witness for the amended C7 on a concrete exactly-unit allocation. -/
theorem claim7_witness :
    run_backtest (DataFrame.mk ["A"] [((⟨2020, 1, 31⟩ : Date), [("A", some (1 : ℚ))])])
        [("A", 1)] 1 (some 1)
      = run_backtest (DataFrame.mk ["A"] [((⟨2020, 1, 31⟩ : Date), [("A", some (1 : ℚ))])])
        [("A", 1)] 1 none :=
  claim7_monthly_rebalance_eq_buy_hold
    (DataFrame.mk ["A"] [((⟨2020, 1, 31⟩ : Date), [("A", some (1 : ℚ))])])
    [("A", 1)] 1 (by simp) (by with_unfolding_all decide)
    (by
      intro dr hdr
      simp only [List.mem_singleton] at hdr
      subst hdr
      exact ⟨1, by
        intro p hp
        simp only [List.mem_singleton] at hp
        subst hp
        with_unfolding_all rfl⟩)

/-! ## C8: sorting and uniqueness lemmas -/

/-- Membership in a stable insertion. -/
lemma mem_insertBy {α : Type} (le : α → α → Bool) (a x : α) : ∀ l : List α,
    (x ∈ insertBy le a l ↔ x = a ∨ x ∈ l) := by
  intro l
  induction l with
  | nil => simp [insertBy]
  | cons y ys ih =>
    by_cases h : le a y = true
    · simp [insertBy, h, List.mem_cons]
    · simp only [insertBy, if_neg h, List.mem_cons, ih]
      tauto

/-- Membership survives sorting. -/
lemma mem_sortBy {α : Type} (le : α → α → Bool) (x : α) : ∀ l : List α,
    (x ∈ sortBy le l ↔ x ∈ l) := by
  intro l
  induction l with
  | nil => simp [sortBy]
  | cons y ys ih =>
    show x ∈ insertBy le y (sortBy le ys) ↔ _
    rw [mem_insertBy, ih]
    simp [List.mem_cons]

/-- Sorting a list that is already sorted (as a `Chain'` of the comparator)
is the identity — in particular the chronological histories the engine
produces are left untouched by `sort_index`. -/
lemma sortBy_eq_self {α : Type} (le : α → α → Bool) : ∀ l : List α,
    List.Chain' (fun p q => le p q = true) l → sortBy le l = l := by
  intro l
  induction l with
  | nil => intro _; rfl
  | cons a rest ih =>
    intro hch
    show insertBy le a (sortBy le rest) = a :: rest
    rw [ih (List.Chain'.tail hch)]
    cases rest with
    | nil => rfl
    | cons b bs =>
      rw [List.chain'_cons] at hch
      simp [insertBy, hch.1]

/-- Inserting into a `≤`-sorted integer list keeps it sorted. -/
lemma pairwise_insertBy_int (x : Int) : ∀ l : List Int,
    l.Pairwise (· ≤ ·) →
    (insertBy (fun a b => decide (a ≤ b)) x l).Pairwise (· ≤ ·) := by
  intro l
  induction l with
  | nil => intro _; simp [insertBy]
  | cons y ys ih =>
    intro hp
    rw [List.pairwise_cons] at hp
    by_cases h : decide (x ≤ y) = true
    · rw [decide_eq_true_eq] at h
      simp only [insertBy, decide_eq_true_eq, if_pos h]
      rw [List.pairwise_cons]
      refine ⟨?_, List.pairwise_cons.mpr hp⟩
      intro z hz
      rcases List.mem_cons.mp hz with hz | hz
      · exact hz ▸ h
      · exact le_trans h (hp.1 z hz)
    · rw [decide_eq_true_eq] at h
      simp only [insertBy, decide_eq_true_eq, if_neg h]
      rw [List.pairwise_cons]
      refine ⟨?_, ih hp.2⟩
      intro z hz
      rcases (mem_insertBy _ x z ys).mp hz with hz | hz
      · exact hz ▸ le_of_not_le h
      · exact hp.1 z hz

/-- The integer sort produces a `≤`-sorted list. -/
lemma pairwise_sortBy_int : ∀ l : List Int,
    (sortBy (fun a b => decide (a ≤ b)) l).Pairwise (· ≤ ·) := by
  intro l
  induction l with
  | nil => simp [sortBy]
  | cons y ys ih => exact pairwise_insertBy_int y _ ih

/-- Insertion of a fresh element preserves distinctness. -/
lemma nodup_insertBy {α : Type} (le : α → α → Bool) (x : α) : ∀ l : List α,
    x ∉ l → l.Nodup → (insertBy le x l).Nodup := by
  intro l
  induction l with
  | nil => intro _ _; simp [insertBy]
  | cons y ys ih =>
    intro hx hnd
    rw [List.nodup_cons] at hnd
    by_cases h : le x y = true
    · simp only [insertBy, if_pos h]
      rw [List.nodup_cons, List.nodup_cons]
      exact ⟨by simpa using hx, hnd⟩
    · simp only [insertBy, if_neg h]
      rw [List.nodup_cons]
      constructor
      · intro hy
        rcases (mem_insertBy _ x y ys).mp hy with hy | hy
        · exact hx (hy ▸ List.mem_cons_self y ys)
        · exact hnd.1 hy
      · exact ih (fun hm => hx (List.mem_cons_of_mem y hm)) hnd.2

/-- Sorting preserves distinctness. -/
lemma nodup_sortBy {α : Type} (le : α → α → Bool) : ∀ l : List α,
    l.Nodup → (sortBy le l).Nodup := by
  intro l
  induction l with
  | nil => intro _; simp [sortBy]
  | cons y ys ih =>
    intro hnd
    rw [List.nodup_cons] at hnd
    exact nodup_insertBy le y _ (fun hm => hnd.1 ((mem_sortBy le y ys).mp hm))
      (ih hnd.2)

/-- Membership in the seen-accumulator dedup. -/
lemma mem_uniqueAux (x : Int) : ∀ (l seen : List Int),
    (x ∈ uniqueAux seen l ↔ x ∈ l ∧ x ∉ seen) := by
  intro l
  induction l with
  | nil => intro seen; simp [uniqueAux]
  | cons y ys ih =>
    intro seen
    by_cases h : seen.contains y = true
    · have hy : y ∈ seen := List.elem_iff.mp h
      rw [uniqueAux, if_pos h, ih seen]
      constructor
      · rintro ⟨h1, h2⟩
        exact ⟨List.mem_cons_of_mem y h1, h2⟩
      · rintro ⟨h1, h2⟩
        rcases List.mem_cons.mp h1 with rfl | h1
        · exact absurd hy h2
        · exact ⟨h1, h2⟩
    · have hy : y ∉ seen := fun hm => h (List.elem_iff.mpr hm)
      rw [uniqueAux, if_neg h, List.mem_cons, ih (y :: seen)]
      constructor
      · rintro (rfl | ⟨h1, h2⟩)
        · exact ⟨List.mem_cons_self x ys, hy⟩
        · exact ⟨List.mem_cons_of_mem y h1, fun hm => h2 (List.mem_cons_of_mem y hm)⟩
      · rintro ⟨h1, h2⟩
        rcases List.mem_cons.mp h1 with rfl | h1
        · exact Or.inl rfl
        · by_cases hxy : x = y
          · exact Or.inl hxy
          · refine Or.inr ⟨h1, ?_⟩
            intro hm
            rcases List.mem_cons.mp hm with hc | hc
            · exact hxy hc
            · exact h2 hc

/-- The dedup keeps each element once. -/
lemma nodup_uniqueAux : ∀ (l seen : List Int), (uniqueAux seen l).Nodup := by
  intro l
  induction l with
  | nil => intro seen; simp [uniqueAux]
  | cons y ys ih =>
    intro seen
    by_cases h : seen.contains y = true
    · simpa only [uniqueAux, if_pos h] using ih seen
    · simp only [uniqueAux, if_neg h]
      rw [List.nodup_cons]
      refine ⟨?_, ih (y :: seen)⟩
      intro hm
      exact ((mem_uniqueAux y ys (y :: seen)).mp hm).2 (List.mem_cons_self y seen)

/-- `uniqueList` has exactly the members of its input. -/
lemma mem_uniqueList (x : Int) (l : List Int) : x ∈ uniqueList l ↔ x ∈ l := by
  unfold uniqueList
  rw [mem_uniqueAux]
  simp

/-- `uniqueList` is duplicate-free. -/
lemma nodup_uniqueList (l : List Int) : (uniqueList l).Nodup :=
  nodup_uniqueAux l []

/-- When every requested year is present in the history and all values (and
the seed) are positive, the guarded loop of `_compute_yearly_returns` agrees
with the spec's unguarded chained formula, and emits exactly one pair per
requested year, in order. -/
lemma yearlyGo_spec (hist : List (Date × ℚ)) (hpos : ∀ p ∈ hist, 0 < p.2) :
    ∀ (ys : List Int) (prev : ℚ), 0 < prev →
      (∀ y ∈ ys, ∃ p ∈ hist, p.1.year = y) →
      yearlyGo hist ys prev = yearlySpecGo hist ys prev ∧
      (yearlyGo hist ys prev).map Prod.fst = ys := by
  intro ys
  induction ys with
  | nil => intro prev _ _; exact ⟨rfl, rfl⟩
  | cons y ys' ih =>
    intro prev hprev hys
    obtain ⟨p, hp, hpy⟩ := hys y (List.mem_cons_self y ys')
    have hpf : p ∈ hist.filter (fun q => q.1.year == y) :=
      List.mem_filter.mpr ⟨hp, by simp [hpy]⟩
    have hne : hist.filter (fun q => q.1.year == y) ≠ [] := List.ne_nil_of_mem hpf
    have hlast : (hist.filter (fun q => q.1.year == y)).getLast?
        = some ((hist.filter (fun q => q.1.year == y)).getLast hne) :=
      List.getLast?_eq_getLast _ hne
    have hlmem : (hist.filter (fun q => q.1.year == y)).getLast hne ∈ hist :=
      (List.mem_filter.mp (List.getLast_mem hne)).1
    have hlpos : 0 < ((hist.filter (fun q => q.1.year == y)).getLast hne).2 :=
      hpos _ hlmem
    have hrest : ∀ z ∈ ys', ∃ p ∈ hist, p.1.year = z :=
      fun z hz => hys z (List.mem_cons_of_mem y hz)
    have ihr := ih ((hist.filter (fun q => q.1.year == y)).getLast hne).2 hlpos hrest
    dsimp only [yearlyGo, yearlySpecGo]
    rw [hlast, List.getLastD_eq_getLast?, hlast]
    simp only [Option.getD_some, gt_iff_lt, hprev, if_true]
    refine ⟨?_, ?_⟩
    · rw [ihr.1]
    · simp only [List.map_cons, ihr.2]

/-- C8 (amended): for a chronologically ordered history with positive values
and positive initial capital — the regime every engine-produced history lies
in — the yearly-returns derivation produces one pair per distinct calendar
year present, in strictly ascending year order, each return following the
spec's chained formula `(year_end − prev_end)/prev_end` seeded with the
initial capital.  Without positivity the code substitutes a 0 return for a
year whose previous closing value is ≤ 0 instead of the formula —
`claim8_counterexample`. -/
theorem claim8_yearly_returns (hist : List (Date × ℚ)) (ic : ℚ)
    (hsorted : List.Chain' (fun p q => Date.le p.1 q.1 = true) hist)
    (hic : 0 < ic) (hpos : ∀ p ∈ hist, 0 < p.2) :
    _compute_yearly_returns hist ic = yearlyReturnsSpec hist ic ∧
    ((_compute_yearly_returns hist ic).map Prod.fst).Pairwise (· < ·) ∧
    (∀ y : Int, y ∈ (_compute_yearly_returns hist ic).map Prod.fst
        ↔ y ∈ hist.map (fun p => p.1.year)) := by
  have hsort : sortBy (fun p q => Date.le p.1 q.1) hist = hist :=
    sortBy_eq_self _ hist hsorted
  have hyearsmem : ∀ y ∈ sortBy (fun a b => decide (a ≤ b))
      (uniqueList (hist.map (fun p => p.1.year))),
      ∃ p ∈ hist, p.1.year = y := by
    intro y hy
    rw [mem_sortBy, mem_uniqueList] at hy
    obtain ⟨p, hp, he⟩ := List.mem_map.mp hy
    exact ⟨p, hp, he⟩
  have hgo := yearlyGo_spec hist hpos
    (sortBy (fun a b => decide (a ≤ b)) (uniqueList (hist.map (fun p => p.1.year))))
    ic hic hyearsmem
  have hcode : _compute_yearly_returns hist ic
      = yearlyGo hist
          (sortBy (fun a b => decide (a ≤ b))
            (uniqueList (hist.map (fun p => p.1.year)))) ic := by
    dsimp only [_compute_yearly_returns]
    rw [hsort]
  refine ⟨?_, ?_, ?_⟩
  · rw [hcode]
    dsimp only [yearlyReturnsSpec]
    exact hgo.1
  · rw [hcode, hgo.2]
    have h1 : (sortBy (fun a b => decide (a ≤ b))
        (uniqueList (hist.map (fun p => p.1.year)))).Pairwise (· ≤ ·) :=
      pairwise_sortBy_int _
    have h2 : (sortBy (fun a b => decide (a ≤ b))
        (uniqueList (hist.map (fun p => p.1.year)))).Nodup :=
      nodup_sortBy _ _ (nodup_uniqueList _)
    exact (h1.and h2).imp (fun hab => lt_of_le_of_ne hab.1 hab.2)
  · intro y
    rw [hcode, hgo.2, mem_sortBy, mem_uniqueList]

set_option maxRecDepth 4000 in
/-- Counterexample to C8 as stated: with capital 1 and year-end values −2
(2020) then 1 (2021), the code emits a 0 return for 2021 (its `prev_value >
0` guard fails), while the claim's formula demands
`(1 − (−2)) / (−2) = −3/2 ≠ 0`. -/
theorem claim8_counterexample :
    _compute_yearly_returns
        [((⟨2020, 12, 31⟩ : Date), (-2 : ℚ)), ((⟨2021, 12, 31⟩ : Date), (1 : ℚ))] 1
      = [(2020, -3), (2021, 0)] ∧
    ((1 : ℚ) - (-2)) / (-2) = -3/2 ∧
    (-3/2 : ℚ) ≠ 0 := by
  with_unfolding_all decide

set_option maxRecDepth 4000 in
/-- Witness for the amended C8 on a three-entry history spanning 2020 and
2022 (2021 empty, so it contributes no pair). -/
theorem claim8_witness :
    (_compute_yearly_returns
        [((⟨2020, 6, 30⟩ : Date), (2 : ℚ)), ((⟨2020, 12, 31⟩ : Date), (3 : ℚ)),
         ((⟨2022, 3, 31⟩ : Date), (6 : ℚ))] 1
      = yearlyReturnsSpec
        [((⟨2020, 6, 30⟩ : Date), (2 : ℚ)), ((⟨2020, 12, 31⟩ : Date), (3 : ℚ)),
         ((⟨2022, 3, 31⟩ : Date), (6 : ℚ))] 1) ∧
    ((_compute_yearly_returns
        [((⟨2020, 6, 30⟩ : Date), (2 : ℚ)), ((⟨2020, 12, 31⟩ : Date), (3 : ℚ)),
         ((⟨2022, 3, 31⟩ : Date), (6 : ℚ))] 1).map Prod.fst).Pairwise (· < ·) ∧
    (∀ y : Int, y ∈ (_compute_yearly_returns
        [((⟨2020, 6, 30⟩ : Date), (2 : ℚ)), ((⟨2020, 12, 31⟩ : Date), (3 : ℚ)),
         ((⟨2022, 3, 31⟩ : Date), (6 : ℚ))] 1).map Prod.fst
      ↔ y ∈ [((⟨2020, 6, 30⟩ : Date), (2 : ℚ)), ((⟨2020, 12, 31⟩ : Date), (3 : ℚ)),
             ((⟨2022, 3, 31⟩ : Date), (6 : ℚ))].map (fun p => p.1.year)) :=
  claim8_yearly_returns
    [((⟨2020, 6, 30⟩ : Date), (2 : ℚ)), ((⟨2020, 12, 31⟩ : Date), (3 : ℚ)),
     ((⟨2022, 3, 31⟩ : Date), (6 : ℚ))] 1
    (List.chain'_cons.mpr ⟨by decide, List.chain'_cons.mpr ⟨by decide,
      List.chain'_singleton _⟩⟩)
    (by norm_num)
    (by intro p hp; fin_cases hp <;> norm_num)

end RoboAdvisor
